import Mathlib

/-!
Verification of the automatic text-region detection pass of the
PDF auto-ballooning tool (class AutoAnnotationWorker in main.py).

Coordinates (Python floats / Qt qreal) are modelled by rationals.
Strings are modelled by lists of characters.  QRectF is modelled from
the Qt semantics of the operations the code calls (intersected,
united, isEmpty, isNull), storing left/top/width/height.
-/

namespace AutoBalloon

/-- Characters stripped by Python str.strip with no argument (ASCII whitespace). -/
def isPySpace (c : Char) : Bool :=
  c == ' ' || c == '\t' || c == '\n' || c == '\x0b' || c == '\x0c' || c == '\r'

/-- Python s.strip(): remove leading and trailing whitespace. -/
def pyStrip (l : List Char) : List Char :=
  List.rdropWhile isPySpace (List.dropWhile isPySpace l)

/-- QRectF: stored as left (x), top (y), width, height. -/
structure QRect where
  x : ℚ
  y : ℚ
  w : ℚ
  h : ℚ
deriving DecidableEq

namespace QRect

/-- QRectF.isEmpty: width or height not positive. -/
def isEmpty (r : QRect) : Bool :=
  decide (r.w ≤ 0) || decide (r.h ≤ 0)

/-- QRectF.isNull: zero width and zero height. -/
def isNull (r : QRect) : Bool :=
  decide (r.w = 0) && decide (r.h = 0)

/-- Left edge after normalizing a negative width (as Qt does internally). -/
def normLeft (r : QRect) : ℚ := if r.w < 0 then r.x + r.w else r.x

/-- Right edge after normalizing a negative width. -/
def normRight (r : QRect) : ℚ := if r.w < 0 then r.x else r.x + r.w

/-- Top edge after normalizing a negative height. -/
def normTop (r : QRect) : ℚ := if r.h < 0 then r.y + r.h else r.y

/-- Bottom edge after normalizing a negative height. -/
def normBottom (r : QRect) : ℚ := if r.h < 0 then r.y else r.y + r.h

/-- QRectF.intersected, following the Qt implementation: a rectangle with a
degenerate (zero-extent) side, or disjoint extents, yields the null
rectangle; otherwise the rectangle spanning the shared extents. -/
def intersected (r1 r2 : QRect) : QRect :=
  let l1 := r1.normLeft
  let rr1 := r1.normRight
  let l2 := r2.normLeft
  let rr2 := r2.normRight
  if l1 = rr1 then ⟨0, 0, 0, 0⟩
  else if l2 = rr2 then ⟨0, 0, 0, 0⟩
  else if rr2 ≤ l1 ∨ rr1 ≤ l2 then ⟨0, 0, 0, 0⟩
  else
    let t1 := r1.normTop
    let b1 := r1.normBottom
    let t2 := r2.normTop
    let b2 := r2.normBottom
    if t1 = b1 then ⟨0, 0, 0, 0⟩
    else if t2 = b2 then ⟨0, 0, 0, 0⟩
    else if b2 ≤ t1 ∨ b1 ≤ t2 then ⟨0, 0, 0, 0⟩
    else ⟨max l1 l2, max t1 t2, min rr1 rr2 - max l1 l2, min b1 b2 - max t1 t2⟩

/-- QRectF.united, following the Qt implementation: a null rectangle is the
identity; otherwise the bounding rectangle of the normalized extents. -/
def united (r1 r2 : QRect) : QRect :=
  if r1.isNull then r2
  else if r2.isNull then r1
  else
    let l := min r1.normLeft r2.normLeft
    let t := min r1.normTop r2.normTop
    let rr := max r1.normRight r2.normRight
    let b := max r1.normBottom r2.normBottom
    ⟨l, t, rr - l, b - t⟩

end QRect

/-- The page rectangle reported by the PDF engine (page.rect). -/
structure PageRect where
  x0 : ℚ
  y0 : ℚ
  x1 : ℚ
  y1 : ℚ

/-- self.horizontal_padding in AutoAnnotationWorker.__init__. -/
def horizontal_padding : ℚ := 10

/-- self.vertical_padding in AutoAnnotationWorker.__init__. -/
def vertical_padding : ℚ := 15

/-- AutoAnnotationWorker.apply_padding_with_boundaries. -/
def apply_padding_with_boundaries (bbox : ℚ × ℚ × ℚ × ℚ) (page_rect : PageRect) :
    ℚ × ℚ × ℚ × ℚ :=
  let x0 := bbox.1
  let y0 := bbox.2.1
  let x1 := bbox.2.2.1
  let y1 := bbox.2.2.2
  (max page_rect.x0 (x0 - horizontal_padding),
   max page_rect.y0 (y0 - vertical_padding),
   min page_rect.x1 (x1 + horizontal_padding),
   min page_rect.y1 (y1 + vertical_padding))

/-- AutoAnnotationWorker.rectangles_overlap. -/
def rectangles_overlap (rect1 rect2 : QRect) (threshold : ℚ) : Bool :=
  let intersection := rect1.intersected rect2
  if intersection.isEmpty then false
  else
    let smaller_area := min (rect1.w * rect1.h) (rect2.w * rect2.h)
    if smaller_area = 0 then false
    else decide (intersection.w * intersection.h / smaller_area > threshold)

/-- One entry of the text_regions / merged_regions lists built by run:
a dict with keys rect, text, confidence, original_bbox, padded_bbox. -/
structure Region where
  rect : QRect
  text : List Char
  confidence : Nat
  original_bbox : ℚ × ℚ × ℚ × ℚ
  padded_bbox : ℚ × ℚ × ℚ × ℚ
deriving DecidableEq

/-- One entry of page.get_text("dict")["blocks"]: a bounding box and, for
text blocks only, the "lines" key: lines, each a list of spans, each span
carrying its text (image blocks have no "lines" key, modelled as none). -/
structure Block where
  bbox : ℚ × ℚ × ℚ × ℚ
  lines? : Option (List (List (List Char)))

/-- The text_content accumulation in run: every span's text followed by
one space, concatenated over spans and lines. -/
def block_text (lines : List (List (List Char))) : List Char :=
  (lines.map (fun line => (line.map (fun span => span ++ [' '])).flatten)).flatten

/-- The region dict appended to text_regions in run for a block that has
a "lines" key. -/
def mk_text_region (page_rect : PageRect) (b : Block)
    (lines : List (List (List Char))) : Region :=
  let padded_bbox := apply_padding_with_boundaries b.bbox page_rect
  let text := pyStrip (block_text lines)
  { rect := ⟨padded_bbox.1 * 2, padded_bbox.2.1 * 2,
             (padded_bbox.2.2.1 - padded_bbox.1) * 2,
             (padded_bbox.2.2.2 - padded_bbox.2.1) * 2⟩,
    text := text,
    confidence := text.length,
    original_bbox := b.bbox,
    padded_bbox := padded_bbox }

/-- The sort key (r["rect"].top(), r["rect"].left()), compared as Python
compares tuples: lexicographically. -/
def rect_le_lex (r s : QRect) : Prop :=
  r.y < s.y ∨ (r.y = s.y ∧ r.x ≤ s.x)

instance : DecidableRel rect_le_lex := fun r s =>
  inferInstanceAs (Decidable (r.y < s.y ∨ (r.y = s.y ∧ r.x ≤ s.x)))

/-- Region comparison used by both list.sort calls in the worker. -/
def region_le (a b : Region) : Prop :=
  rect_le_lex a.rect b.rect

instance : DecidableRel region_le := fun a b =>
  inferInstanceAs (Decidable (rect_le_lex a.rect b.rect))

/-- The merged dict built inside merge_overlapping_regions when the
overlap test succeeds. -/
def merge_two_regions (current_region next_region : Region) : Region :=
  let merged_rect := current_region.rect.united next_region.rect
  { rect := merged_rect,
    text := pyStrip (current_region.text ++ ' ' :: next_region.text),
    confidence := current_region.text.length,
    original_bbox := current_region.original_bbox,
    padded_bbox := (merged_rect.x / 2, merged_rect.y / 2,
                    (merged_rect.x + merged_rect.w) / 2,
                    (merged_rect.y + merged_rect.h) / 2) }

/-- The loop over regions[1:] in merge_overlapping_regions, carrying the
current_region accumulator; the final current_region is appended. -/
def merge_loop (current_region : Region) : List Region → List Region
  | [] => [current_region]
  | next_region :: rest =>
    if rectangles_overlap current_region.rect next_region.rect (3 / 10) then
      merge_loop (merge_two_regions current_region next_region) rest
    else
      current_region :: merge_loop next_region rest

/-- AutoAnnotationWorker.merge_overlapping_regions: empty input is returned
unchanged; otherwise the regions are sorted by (top, left) and reduced by
the single pass of merge_loop.  The page_rect parameter is unused, as in
the source. -/
def merge_overlapping_regions (regions : List Region) (_page_rect : PageRect) :
    List Region :=
  match List.insertionSort region_le regions with
  | [] => []
  | first :: rest => merge_loop first rest

/-- COLORS in pdf_viewer.py. -/
def COLORS : List String :=
  ["#FF4444", "#44FF44", "#4444FF", "#FFAA00", "#AA44FF",
   "#00FFAA", "#FF0088", "#88FF00", "#0088FF", "#FF8800"]

/-- One dict appended to detected_annotations in run (annotation_item is
always None and is omitted; padding_info is flattened into its two
entries). -/
structure Candidate where
  number : Nat
  page : Nat
  rect : QRect
  color : String
  auto_detected : Bool
  detected_text : List Char
  selected : Bool
  has_padding : Bool
  padding_vertical : ℚ
  padding_horizontal : ℚ
deriving DecidableEq

/-- The text_regions list built by the block loop in run. -/
def initial_text_regions (page_rect : PageRect) (blocks : List Block) :
    List Region :=
  blocks.filterMap (fun b => b.lines?.map (mk_text_region page_rect b))

/-- The candidate built for index i and region r in the final loop of run. -/
def mk_candidate (page_num : Nat) (i : Nat) (r : Region) : Candidate :=
  { number := i + 1,
    page := page_num,
    rect := r.rect,
    color := COLORS.getD (i % COLORS.length) "",
    auto_detected := true,
    detected_text := r.text,
    selected := true,
    has_padding := true,
    padding_vertical := vertical_padding,
    padding_horizontal := horizontal_padding }

/-- The computational core of AutoAnnotationWorker.run, from the block loop
to detected_annotations: build one region per text block, merge, re-sort
by (top, left), then emit a candidate for every region (indexed by its
position i in the sorted merged list) whose text is longer than 2. -/
def run_detection (page_num : Nat) (page_rect : PageRect) (blocks : List Block) :
    List Candidate :=
  let text_regions := initial_text_regions page_rect blocks
  let merged_regions := merge_overlapping_regions text_regions page_rect
  let sorted_regions := List.insertionSort region_le merged_regions
  sorted_regions.enum.filterMap (fun p =>
    if 2 < p.2.text.length then some (mk_candidate page_num p.1 p.2) else none)

/-! ### Observable events of AutoAnnotationWorker.run

The run method executes a try block, an except handler emitting an error
progress update, and a finally block emitting the finished signal.  We
model the observable behaviour as an event trace parameterized by which
statement of the try block (if any) raises an exception. -/

/-- Externally observable events of one execution of run. -/
inductive RunEvent where
  | progress (pct : Nat)
  | openDoc
  | closeDoc
  | resultsEmitted
  | finishedSignal
  | errorProgress
deriving DecidableEq

/-- The statements of the try block of run, in source order; some e marks a
statement observable as event e, none a statement with no observable event
(doc subscripting, page.rect, get_text, the block loop, the merge call, the
sort plus candidate loop). -/
def try_block_events : List (Option RunEvent) :=
  [some (.progress 10),   -- self.progress_updated.emit(10, ...)
   some .openDoc,         -- doc = fitz.open(self.pdf_path)
   none,                  -- page = doc[self.page_num]
   none,                  -- page_rect = page.rect
   some (.progress 30),   -- self.progress_updated.emit(30, ...)
   none,                  -- blocks = page.get_text("dict")["blocks"]
   none,                  -- the block loop building text_regions
   some (.progress 60),
   none,                  -- merged_regions = self.merge_overlapping_regions(...)
   some (.progress 70),
   none,                  -- merged_regions.sort(...) and the candidate loop
   some (.progress 90),
   some .closeDoc,        -- doc.close()
   some .resultsEmitted,  -- self.annotations_found.emit(...)
   some (.progress 100)]

/-- The event trace of one execution of run: with fail_at = none every
statement of the try block runs and the finally block emits the finished
signal; with fail_at = some k statement k raises before producing its
event, control jumps to the except handler (error progress update), and
the finally block still emits the finished signal. -/
def run_trace (fail_at : Option Nat) : List RunEvent :=
  match fail_at with
  | none => try_block_events.filterMap id ++ [.finishedSignal]
  | some k =>
    (try_block_events.take k).filterMap id ++ [.errorProgress, .finishedSignal]

/-! ### Spec-side predicates -/

/-- The spec reading of the padding formula: clamp of the padded box. -/
def padding_formula (bbox : ℚ × ℚ × ℚ × ℚ) (P : PageRect) : ℚ × ℚ × ℚ × ℚ :=
  (max P.x0 (bbox.1 - 10), max P.y0 (bbox.2.1 - 15),
   min P.x1 (bbox.2.2.1 + 10), min P.y1 (bbox.2.2.2 + 15))

/-- All four coordinates of a page-space box lie inside the page bounds. -/
def coords_within (bbox : ℚ × ℚ × ℚ × ℚ) (P : PageRect) : Prop :=
  P.x0 ≤ bbox.1 ∧ bbox.1 ≤ P.x1 ∧
  P.x0 ≤ bbox.2.2.1 ∧ bbox.2.2.1 ≤ P.x1 ∧
  P.y0 ≤ bbox.2.1 ∧ bbox.2.1 ≤ P.y1 ∧
  P.y0 ≤ bbox.2.2.2 ∧ bbox.2.2.2 ≤ P.y1

/-- A page-space box is contained in the page bounds. -/
def box_in_page (bbox : ℚ × ℚ × ℚ × ℚ) (P : PageRect) : Prop :=
  P.x0 ≤ bbox.1 ∧ P.y0 ≤ bbox.2.1 ∧ bbox.2.2.1 ≤ P.x1 ∧ bbox.2.2.2 ≤ P.y1

/-- A block bounding box (x0, y0, x1, y1) is well formed and lies within
the page bounds. -/
def bbox_within (bbox : ℚ × ℚ × ℚ × ℚ) (P : PageRect) : Prop :=
  P.x0 ≤ bbox.1 ∧ bbox.1 ≤ bbox.2.2.1 ∧ bbox.2.2.1 ≤ P.x1 ∧
  P.y0 ≤ bbox.2.1 ∧ bbox.2.1 ≤ bbox.2.2.2 ∧ bbox.2.2.2 ≤ P.y1

/-- A display-space rectangle lies within the page bounds scaled by the
fixed display factor 2. -/
def rect_in_scaled_page (P : PageRect) (r : QRect) : Prop :=
  2 * P.x0 ≤ r.x ∧ r.x + r.w ≤ 2 * P.x1 ∧
  2 * P.y0 ≤ r.y ∧ r.y + r.h ≤ 2 * P.y1

/-- Every candidate rect of a detection output lies within the scaled
page bounds. -/
def output_in_scaled_page (P : PageRect) (l : List Candidate) : Prop :=
  ∀ c ∈ l, rect_in_scaled_page P c.rect

/-- Rectangle s contains rectangle r (edge containment, for rectangles
with nonnegative extents). -/
def rect_contains (s r : QRect) : Prop :=
  s.x ≤ r.x ∧ r.x + r.w ≤ s.x + s.w ∧ s.y ≤ r.y ∧ r.y + r.h ≤ s.y + s.h

/-- The bounding-box union of two rectangles, as the spec describes the
merged rectangle. -/
def bbox_union (r s : QRect) : QRect :=
  ⟨min r.x s.x, min r.y s.y,
   max (r.x + r.w) (s.x + s.w) - min r.x s.x,
   max (r.y + r.h) (s.y + s.h) - min r.y s.y⟩

/-- Every emitted candidate carries text longer than 2 characters. -/
def output_texts_long (l : List Candidate) : Prop :=
  ∀ c ∈ l, 2 < c.detected_text.length

/-- Every region of a list has trimmed text of length at most 2. -/
def all_regions_short (l : List Region) : Prop :=
  ∀ r ∈ l, r.text.length ≤ 2

/-- The numbers of the output are strictly increasing left to right. -/
def numbers_strictly_increasing (l : List Candidate) : Prop :=
  List.Chain' (fun a b => a.number < b.number) l

/-- Every candidate's color is the palette entry at (number - 1) modulo
the palette size, and numbers start at 1. -/
def colors_follow_numbers (l : List Candidate) : Prop :=
  ∀ c ∈ l, 1 ≤ c.number ∧ c.color = COLORS.getD ((c.number - 1) % COLORS.length) ""

/-- Invariant carried through the pipeline for C7: the rectangle lies in
the scaled page bounds and has nonnegative extents. -/
def GoodRect (P : PageRect) (r : QRect) : Prop :=
  rect_in_scaled_page P r ∧ 0 ≤ r.w ∧ 0 ≤ r.h

/-- The claim that output numbers are exactly the dense sequence 1..N. -/
def numbers_dense (l : List Candidate) : Prop :=
  l.map Candidate.number = List.range' 1 l.length

instance (bbox : ℚ × ℚ × ℚ × ℚ) (P : PageRect) : Decidable (coords_within bbox P) :=
  inferInstanceAs (Decidable (_ ∧ _))

instance (bbox : ℚ × ℚ × ℚ × ℚ) (P : PageRect) : Decidable (box_in_page bbox P) :=
  inferInstanceAs (Decidable (_ ∧ _))

instance (bbox : ℚ × ℚ × ℚ × ℚ) (P : PageRect) : Decidable (bbox_within bbox P) :=
  inferInstanceAs (Decidable (_ ∧ _))

instance (P : PageRect) (r : QRect) : Decidable (rect_in_scaled_page P r) :=
  inferInstanceAs (Decidable (_ ∧ _))

instance (s r : QRect) : Decidable (rect_contains s r) :=
  inferInstanceAs (Decidable (_ ∧ _))

instance (P : PageRect) (l : List Candidate) : Decidable (output_in_scaled_page P l) :=
  inferInstanceAs (Decidable (∀ c ∈ l, rect_in_scaled_page P c.rect))

instance (l : List Candidate) : Decidable (output_texts_long l) :=
  inferInstanceAs (Decidable (∀ c ∈ l, 2 < c.detected_text.length))

instance (l : List Region) : Decidable (all_regions_short l) :=
  inferInstanceAs (Decidable (∀ r ∈ l, r.text.length ≤ 2))

instance (l : List Candidate) : Decidable (numbers_strictly_increasing l) :=
  inferInstanceAs (Decidable (List.Chain' _ l))

instance (l : List Candidate) : Decidable (colors_follow_numbers l) :=
  inferInstanceAs (Decidable (∀ c ∈ l, _ ∧ _))

instance (l : List Candidate) : Decidable (numbers_dense l) :=
  inferInstanceAs (Decidable (_ = _))

instance : IsTotal Region region_le :=
  ⟨fun a b => by
    unfold region_le rect_le_lex
    rcases lt_trichotomy a.rect.y b.rect.y with h | h | h
    · exact Or.inl (Or.inl h)
    · rcases le_total a.rect.x b.rect.x with hx | hx
      · exact Or.inl (Or.inr ⟨h, hx⟩)
      · exact Or.inr (Or.inr ⟨h.symm, hx⟩)
    · exact Or.inr (Or.inl h)⟩

instance : IsTrans Region region_le :=
  ⟨fun a b c hab hbc => by
    unfold region_le rect_le_lex at hab hbc ⊢
    rcases hab with h1 | ⟨h1, h1x⟩
    · rcases hbc with h2 | ⟨h2, h2x⟩
      · exact Or.inl (lt_trans h1 h2)
      · exact Or.inl (h1.trans_le h2.le)
    · rcases hbc with h2 | ⟨h2, h2x⟩
      · exact Or.inl (h1.le.trans_lt h2)
      · exact Or.inr ⟨h1.trans h2, h1x.trans h2x⟩⟩

/-! ### Theorems -/

lemma filterMap_guard_sublist {α β : Type} (q : α → Prop) [DecidablePred q]
    (f : α → β) (l : List α) :
    List.Sublist (l.filterMap (fun x => if q x then some (f x) else none))
      (l.map f) := by
  induction l with
  | nil => simp
  | cons a t ih =>
    by_cases hq : q a
    · simp only [List.filterMap_cons, if_pos hq, List.map_cons]
      exact ih.cons₂ (f a)
    · simp only [List.filterMap_cons, if_neg hq, List.map_cons]
      exact ih.cons (f a)

lemma pairwise_fst_lt_enumFrom {α : Type} (n : Nat) (l : List α) :
    List.Pairwise (fun p q : Nat × α => p.1 < q.1) (List.enumFrom n l) := by
  induction l generalizing n with
  | nil => simp
  | cons a t ih =>
    rw [List.enumFrom_cons]
    refine List.Pairwise.cons ?_ (ih (n + 1))
    intro q hq
    have hm := List.mem_enumFrom hq
    omega

/-- C10: a detection run on an empty block list yields the empty candidate
sequence, and the merge step applied to an empty region list returns the
empty list; no error is involved (the embedding is a total function). -/
theorem run_detection_empty_input (page_num : Nat) (page_rect : PageRect) :
    run_detection page_num page_rect [] = [] ∧
    merge_overlapping_regions [] page_rect = [] :=
  ⟨rfl, rfl⟩

/-- C3: apply_padding_with_boundaries returns exactly the clamped padded
box (max(P.x0, x0-10), max(P.y0, y0-15), min(P.x1, x1+10), min(P.y1, y1+15)),
and for a box whose coordinates lie within the page bounds the padded box
is contained in the page bounds. -/
theorem apply_padding_with_boundaries_spec (bbox : ℚ × ℚ × ℚ × ℚ)
    (page_rect : PageRect) :
    apply_padding_with_boundaries bbox page_rect = padding_formula bbox page_rect ∧
    (coords_within bbox page_rect →
      box_in_page (apply_padding_with_boundaries bbox page_rect) page_rect) := by
  refine ⟨rfl, fun _ => ?_⟩
  refine ⟨le_max_left _ _, le_max_left _ _, min_le_left _ _, min_le_left _ _⟩

/-- C3 witness: the padding theorem applied to the box (10, 10, 50, 30) on
the page (0, 0, 200, 200). -/
theorem apply_padding_with_boundaries_spec_witness :
    apply_padding_with_boundaries (10, 10, 50, 30) ⟨0, 0, 200, 200⟩ =
      padding_formula (10, 10, 50, 30) ⟨0, 0, 200, 200⟩ ∧
    box_in_page (apply_padding_with_boundaries (10, 10, 50, 30) ⟨0, 0, 200, 200⟩)
      ⟨0, 0, 200, 200⟩ :=
  ⟨(apply_padding_with_boundaries_spec (10, 10, 50, 30) ⟨0, 0, 200, 200⟩).1,
   (apply_padding_with_boundaries_spec (10, 10, 50, 30) ⟨0, 0, 200, 200⟩).2
     (by with_unfolding_all decide)⟩

/-! ### Lemmas about pyStrip -/

lemma dropWhile_cons_eq_self {p : Char → Bool} {a : Char} {t : List Char}
    (hd : List.dropWhile p (a :: t) = a :: t) : p a = false := by
  cases ha : p a with
  | false => rfl
  | true =>
    rw [List.dropWhile_cons, if_pos ha] at hd
    have hle : (List.dropWhile p t).length ≤ t.length :=
      (List.dropWhile_suffix p).length_le
    rw [hd] at hle
    simp at hle

lemma pyStrip_eq_self_parts {l : List Char} (h : pyStrip l = l) :
    List.dropWhile isPySpace l = l ∧ List.rdropWhile isPySpace l = l := by
  have hsuf : List.dropWhile isPySpace l <:+ l := List.dropWhile_suffix _
  have hlen1 : (List.dropWhile isPySpace l).length ≤ l.length := hsuf.length_le
  have hlen2 :=
    ( List.rdropWhile_prefix isPySpace (List.dropWhile isPySpace l)).length_le
  unfold pyStrip at h
  rw [h] at hlen2
  have hdl : List.dropWhile isPySpace l = l :=
    hsuf.eq_of_length (le_antisymm hlen1 hlen2)
  rw [hdl] at h
  exact ⟨hdl, h⟩

lemma dropWhile_append_eq_self {p : Char → Bool} {l1 : List Char} (l2 : List Char)
    (h : List.dropWhile p l1 = l1) (hne : l1 ≠ []) :
    List.dropWhile p (l1 ++ l2) = l1 ++ l2 := by
  cases l1 with
  | nil => exact absurd rfl hne
  | cons a t =>
    have ha : p a = false := dropWhile_cons_eq_self h
    simp [List.dropWhile_cons, ha]

lemma rdropWhile_append_eq_self {p : Char → Bool} (l1 : List Char) {l2 : List Char}
    (h : List.rdropWhile p l2 = l2) (hne : l2 ≠ []) :
    List.rdropWhile p (l1 ++ l2) = l1 ++ l2 := by
  rw [List.rdropWhile_eq_self_iff]
  intro hl
  have hlast : (l1 ++ l2).getLast hl = l2.getLast hne := by
    rw [List.getLast_append]
    rw [dif_neg (by simp [hne])]
  rw [hlast]
  exact List.rdropWhile_eq_self_iff.mp h hne

lemma pyStrip_cons_space {t : List Char} (hd : List.dropWhile isPySpace t = t)
    (hr : List.rdropWhile isPySpace t = t) :
    pyStrip (' ' :: t) = t := by
  unfold pyStrip
  rw [List.dropWhile_cons]
  have : isPySpace ' ' = true := rfl
  rw [if_pos this, hd, hr]

/-- C5: merging two regions whose texts are already trimmed produces the
trimmed concatenation of the first text, one space, and the second text,
in that order; when both texts are nonempty the trim removes nothing, and
in every case no character of either input is dropped. -/
theorem merge_text_lossless (r1 r2 : Region)
    (h1 : pyStrip r1.text = r1.text) (h2 : pyStrip r2.text = r2.text) :
    (merge_two_regions r1 r2).text = pyStrip (r1.text ++ ' ' :: r2.text) ∧
    (r1.text ≠ [] → r2.text ≠ [] →
      (merge_two_regions r1 r2).text = r1.text ++ ' ' :: r2.text) ∧
    List.Sublist (r1.text ++ r2.text) ((merge_two_regions r1 r2).text) := by
  obtain ⟨h1d, h1r⟩ := pyStrip_eq_self_parts h1
  obtain ⟨h2d, h2r⟩ := pyStrip_eq_self_parts h2
  have hm : (merge_two_regions r1 r2).text = pyStrip (r1.text ++ ' ' :: r2.text) := rfl
  have hmain : r1.text ≠ [] → r2.text ≠ [] →
      (merge_two_regions r1 r2).text = r1.text ++ ' ' :: r2.text := by
    intro hn1 hn2
    rw [hm]
    unfold pyStrip
    rw [dropWhile_append_eq_self (' ' :: r2.text) h1d hn1]
    apply rdropWhile_append_eq_self r1.text ?_ (by simp)
    rw [List.rdropWhile_eq_self_iff]
    intro hl
    rw [List.getLast_cons hn2]
    exact List.rdropWhile_eq_self_iff.mp h2r hn2
  refine ⟨hm, hmain, ?_⟩
  by_cases hn1 : r1.text = []
  · rw [hm, hn1, List.nil_append, List.nil_append]
    rw [pyStrip_cons_space h2d h2r]
  · by_cases hn2 : r2.text = []
    · rw [hm, hn2]
      have : r1.text ++ [' '] = r1.text ++ ' ' :: [] := rfl
      rw [List.append_nil]
      unfold pyStrip
      rw [dropWhile_append_eq_self [' '] h1d hn1]
      rw [List.rdropWhile_concat_pos _ _ _ rfl, h1r]
    · rw [hmain hn1 hn2]
      exact List.Sublist.append_left (List.sublist_cons_self ' ' r2.text) r1.text

/-- C5 witness: the merge-text theorem applied to two regions carrying the
trimmed texts ab and cd. -/
theorem merge_text_lossless_witness :
    (merge_two_regions ⟨⟨0, 0, 1, 1⟩, ['a', 'b'], 2, (0, 0, 0, 0), (0, 0, 0, 0)⟩
        ⟨⟨0, 0, 1, 1⟩, ['c', 'd'], 2, (0, 0, 0, 0), (0, 0, 0, 0)⟩).text =
      ['a', 'b'] ++ ' ' :: ['c', 'd'] :=
  (merge_text_lossless _ _ (by decide) (by decide)).2.1 (by decide) (by decide)

/-! ### Lemmas about the Qt rectangle operations -/

lemma normLeft_of_nonneg {r : QRect} (h : 0 ≤ r.w) : r.normLeft = r.x :=
  if_neg (not_lt.mpr h)

lemma normRight_of_nonneg {r : QRect} (h : 0 ≤ r.w) : r.normRight = r.x + r.w :=
  if_neg (not_lt.mpr h)

lemma normTop_of_nonneg {r : QRect} (h : 0 ≤ r.h) : r.normTop = r.y :=
  if_neg (not_lt.mpr h)

lemma normBottom_of_nonneg {r : QRect} (h : 0 ≤ r.h) : r.normBottom = r.y + r.h :=
  if_neg (not_lt.mpr h)

lemma isEmpty_null_rect : QRect.isEmpty ⟨0, 0, 0, 0⟩ = true := by
  simp [QRect.isEmpty]

lemma intersected_isEmpty_iff {r1 r2 : QRect} (h1w : 0 ≤ r1.w) (h1h : 0 ≤ r1.h)
    (h2w : 0 ≤ r2.w) (h2h : 0 ≤ r2.h) :
    (r1.intersected r2).isEmpty = false ↔
      (max r1.x r2.x < min (r1.x + r1.w) (r2.x + r2.w) ∧
       max r1.y r2.y < min (r1.y + r1.h) (r2.y + r2.h)) := by
  have hx1 : r1.x ≤ max r1.x r2.x := le_max_left _ _
  have hx2 : r2.x ≤ max r1.x r2.x := le_max_right _ _
  have hx3 : min (r1.x + r1.w) (r2.x + r2.w) ≤ r1.x + r1.w := min_le_left _ _
  have hx4 : min (r1.x + r1.w) (r2.x + r2.w) ≤ r2.x + r2.w := min_le_right _ _
  have hy1 : r1.y ≤ max r1.y r2.y := le_max_left _ _
  have hy2 : r2.y ≤ max r1.y r2.y := le_max_right _ _
  have hy3 : min (r1.y + r1.h) (r2.y + r2.h) ≤ r1.y + r1.h := min_le_left _ _
  have hy4 : min (r1.y + r1.h) (r2.y + r2.h) ≤ r2.y + r2.h := min_le_right _ _
  simp only [QRect.intersected, normLeft_of_nonneg h1w, normRight_of_nonneg h1w,
      normLeft_of_nonneg h2w, normRight_of_nonneg h2w,
      normTop_of_nonneg h1h, normBottom_of_nonneg h1h,
      normTop_of_nonneg h2h, normBottom_of_nonneg h2h]
  split_ifs with hc1 hc2 hc3 hc4 hc5 hc6
  · refine iff_of_false (by simp [isEmpty_null_rect]) ?_
    rintro ⟨hxx, hyy⟩
    linarith
  · refine iff_of_false (by simp [isEmpty_null_rect]) ?_
    rintro ⟨hxx, hyy⟩
    linarith
  · refine iff_of_false (by simp [isEmpty_null_rect]) ?_
    rintro ⟨hxx, hyy⟩
    rcases hc3 with hc3 | hc3
    · linarith
    · linarith
  · refine iff_of_false (by simp [isEmpty_null_rect]) ?_
    rintro ⟨hxx, hyy⟩
    linarith
  · refine iff_of_false (by simp [isEmpty_null_rect]) ?_
    rintro ⟨hxx, hyy⟩
    linarith
  · refine iff_of_false (by simp [isEmpty_null_rect]) ?_
    rintro ⟨hxx, hyy⟩
    rcases hc6 with hc6 | hc6
    · linarith
    · linarith
  · simp only [QRect.isEmpty, Bool.or_eq_false_iff, decide_eq_false_iff_not, not_le,
      sub_pos]

lemma intersected_eq_of_nonempty {r1 r2 : QRect} (h1w : 0 ≤ r1.w) (h1h : 0 ≤ r1.h)
    (h2w : 0 ≤ r2.w) (h2h : 0 ≤ r2.h)
    (hx : max r1.x r2.x < min (r1.x + r1.w) (r2.x + r2.w))
    (hy : max r1.y r2.y < min (r1.y + r1.h) (r2.y + r2.h)) :
    r1.intersected r2 =
      ⟨max r1.x r2.x, max r1.y r2.y,
       min (r1.x + r1.w) (r2.x + r2.w) - max r1.x r2.x,
       min (r1.y + r1.h) (r2.y + r2.h) - max r1.y r2.y⟩ := by
  have hx1 : r1.x ≤ max r1.x r2.x := le_max_left _ _
  have hx2 : r2.x ≤ max r1.x r2.x := le_max_right _ _
  have hx3 : min (r1.x + r1.w) (r2.x + r2.w) ≤ r1.x + r1.w := min_le_left _ _
  have hx4 : min (r1.x + r1.w) (r2.x + r2.w) ≤ r2.x + r2.w := min_le_right _ _
  have hy1 : r1.y ≤ max r1.y r2.y := le_max_left _ _
  have hy2 : r2.y ≤ max r1.y r2.y := le_max_right _ _
  have hy3 : min (r1.y + r1.h) (r2.y + r2.h) ≤ r1.y + r1.h := min_le_left _ _
  have hy4 : min (r1.y + r1.h) (r2.y + r2.h) ≤ r2.y + r2.h := min_le_right _ _
  simp only [QRect.intersected, normLeft_of_nonneg h1w, normRight_of_nonneg h1w,
      normLeft_of_nonneg h2w, normRight_of_nonneg h2w,
      normTop_of_nonneg h1h, normBottom_of_nonneg h1h,
      normTop_of_nonneg h2h, normBottom_of_nonneg h2h]
  split_ifs with hc1 hc2 hc3 hc4 hc5 hc6
  · exact absurd hc1 (by intro h; linarith)
  · exact absurd hc2 (by intro h; linarith)
  · rcases hc3 with hc3 | hc3
    · exact absurd hc3 (by intro h; linarith)
    · exact absurd hc3 (by intro h; linarith)
  · exact absurd hc4 (by intro h; linarith)
  · exact absurd hc5 (by intro h; linarith)
  · rcases hc6 with hc6 | hc6
    · exact absurd hc6 (by intro h; linarith)
    · exact absurd hc6 (by intro h; linarith)
  · rfl

/-- C4: for well-formed rectangles (nonnegative width and height) the
overlap predicate holds exactly when the intersection is nonempty, the
smaller of the two areas is nonzero, and the ratio of the intersection
area to the smaller area strictly exceeds the 0.3 threshold. -/
theorem rectangles_overlap_iff (r1 r2 : QRect) (h1w : 0 ≤ r1.w) (h1h : 0 ≤ r1.h)
    (h2w : 0 ≤ r2.w) (h2h : 0 ≤ r2.h) :
    rectangles_overlap r1 r2 (3 / 10) = true ↔
      ((max r1.x r2.x < min (r1.x + r1.w) (r2.x + r2.w) ∧
        max r1.y r2.y < min (r1.y + r1.h) (r2.y + r2.h)) ∧
       min (r1.w * r1.h) (r2.w * r2.h) ≠ 0 ∧
       (min (r1.x + r1.w) (r2.x + r2.w) - max r1.x r2.x) *
           (min (r1.y + r1.h) (r2.y + r2.h) - max r1.y r2.y) /
           min (r1.w * r1.h) (r2.w * r2.h) > 3 / 10) := by
  simp only [rectangles_overlap]
  by_cases hne : max r1.x r2.x < min (r1.x + r1.w) (r2.x + r2.w) ∧
      max r1.y r2.y < min (r1.y + r1.h) (r2.y + r2.h)
  · have hie : (r1.intersected r2).isEmpty = false :=
      (intersected_isEmpty_iff h1w h1h h2w h2h).mpr hne
    rw [intersected_eq_of_nonempty h1w h1h h2w h2h hne.1 hne.2] at hie ⊢
    rw [hie]
    simp only [Bool.false_eq_true, if_false]
    by_cases hz : min (r1.w * r1.h) (r2.w * r2.h) = 0
    · rw [if_pos hz]
      simp [hz]
    · rw [if_neg hz]
      simp only [decide_eq_true_eq]
      constructor
      · intro h
        exact ⟨hne, hz, h⟩
      · intro h
        exact h.2.2
  · have hie : ¬ (r1.intersected r2).isEmpty = false := by
      intro h
      exact hne ((intersected_isEmpty_iff h1w h1h h2w h2h).mp h)
    have hie2 : (r1.intersected r2).isEmpty = true := by
      cases h : (r1.intersected r2).isEmpty with
      | false => exact absurd h hie
      | true => rfl
    rw [hie2]
    simp only [if_true]
    constructor
    · intro h
      exact absurd h (by simp)
    · intro h
      exact absurd h.1 hne

/-- C4 witness: the overlap characterization applied to the rectangles
(0, 0, 10, 10) and (2, 2, 10, 10), which overlap with ratio 0.64. -/
theorem rectangles_overlap_iff_witness :
    rectangles_overlap ⟨0, 0, 10, 10⟩ ⟨2, 2, 10, 10⟩ (3 / 10) = true :=
  (rectangles_overlap_iff ⟨0, 0, 10, 10⟩ ⟨2, 2, 10, 10⟩
      (by norm_num) (by norm_num) (by norm_num) (by norm_num)).mpr
    (by constructor
        · constructor <;> norm_num
        · constructor
          · norm_num
          · norm_num)

/-- C6: whenever two regions are merged (that is, when the overlap test
succeeds), the merged region's rectangle equals the bounding-box union of
the two input rectangles and therefore contains each input rectangle. -/
theorem merge_rect_is_bbox_union (r1 r2 : Region)
    (h1w : 0 ≤ r1.rect.w) (h1h : 0 ≤ r1.rect.h)
    (h2w : 0 ≤ r2.rect.w) (h2h : 0 ≤ r2.rect.h)
    (hov : rectangles_overlap r1.rect r2.rect (3 / 10) = true) :
    (merge_two_regions r1 r2).rect = bbox_union r1.rect r2.rect ∧
    rect_contains ((merge_two_regions r1 r2).rect) r1.rect ∧
    rect_contains ((merge_two_regions r1 r2).rect) r2.rect := by
  have hne : (r1.rect.intersected r2.rect).isEmpty = false := by
    cases hemp : (r1.rect.intersected r2.rect).isEmpty with
    | false => rfl
    | true => simp [rectangles_overlap, hemp] at hov
  obtain ⟨hx, hy⟩ := (intersected_isEmpty_iff h1w h1h h2w h2h).mp hne
  have hw1 : 0 < r1.rect.w := by
    have h1 : r1.rect.x ≤ max r1.rect.x r2.rect.x := le_max_left _ _
    have h2 : min (r1.rect.x + r1.rect.w) (r2.rect.x + r2.rect.w) ≤
        r1.rect.x + r1.rect.w := min_le_left _ _
    linarith
  have hh1 : 0 < r1.rect.h := by
    have h1 : r1.rect.y ≤ max r1.rect.y r2.rect.y := le_max_left _ _
    have h2 : min (r1.rect.y + r1.rect.h) (r2.rect.y + r2.rect.h) ≤
        r1.rect.y + r1.rect.h := min_le_left _ _
    linarith
  have hw2 : 0 < r2.rect.w := by
    have h1 : r2.rect.x ≤ max r1.rect.x r2.rect.x := le_max_right _ _
    have h2 : min (r1.rect.x + r1.rect.w) (r2.rect.x + r2.rect.w) ≤
        r2.rect.x + r2.rect.w := min_le_right _ _
    linarith
  have hh2 : 0 < r2.rect.h := by
    have h1 : r2.rect.y ≤ max r1.rect.y r2.rect.y := le_max_right _ _
    have h2 : min (r1.rect.y + r1.rect.h) (r2.rect.y + r2.rect.h) ≤
        r2.rect.y + r2.rect.h := min_le_right _ _
    linarith
  have hnn1 : r1.rect.isNull = false := by
    simp [QRect.isNull]
    intro h
    exact absurd h (ne_of_gt hw1)
  have hnn2 : r2.rect.isNull = false := by
    simp [QRect.isNull]
    intro h
    exact absurd h (ne_of_gt hw2)
  have hrect : (merge_two_regions r1 r2).rect = bbox_union r1.rect r2.rect := by
    show r1.rect.united r2.rect = bbox_union r1.rect r2.rect
    simp only [QRect.united, hnn1, hnn2, Bool.false_eq_true, if_false,
      normLeft_of_nonneg h1w, normRight_of_nonneg h1w,
      normLeft_of_nonneg h2w, normRight_of_nonneg h2w,
      normTop_of_nonneg h1h, normBottom_of_nonneg h1h,
      normTop_of_nonneg h2h, normBottom_of_nonneg h2h]
    rfl
  refine ⟨hrect, ?_, ?_⟩
  · rw [hrect]
    simp only [rect_contains, bbox_union]
    refine ⟨min_le_left _ _, ?_, min_le_left _ _, ?_⟩
    · have h1 : r1.rect.x + r1.rect.w ≤
          max (r1.rect.x + r1.rect.w) (r2.rect.x + r2.rect.w) := le_max_left _ _
      linarith
    · have h1 : r1.rect.y + r1.rect.h ≤
          max (r1.rect.y + r1.rect.h) (r2.rect.y + r2.rect.h) := le_max_left _ _
      linarith
  · rw [hrect]
    simp only [rect_contains, bbox_union]
    refine ⟨min_le_right _ _, ?_, min_le_right _ _, ?_⟩
    · have h1 : r2.rect.x + r2.rect.w ≤
          max (r1.rect.x + r1.rect.w) (r2.rect.x + r2.rect.w) := le_max_right _ _
      linarith
    · have h1 : r2.rect.y + r2.rect.h ≤
          max (r1.rect.y + r1.rect.h) (r2.rect.y + r2.rect.h) := le_max_right _ _
      linarith

/-- C6 witness: the merge-rectangle theorem applied to two overlapping
regions with rectangles (0, 0, 10, 10) and (2, 2, 10, 10). -/
theorem merge_rect_is_bbox_union_witness :
    (merge_two_regions ⟨⟨0, 0, 10, 10⟩, ['a'], 1, (0, 0, 0, 0), (0, 0, 0, 0)⟩
        ⟨⟨2, 2, 10, 10⟩, ['b'], 1, (0, 0, 0, 0), (0, 0, 0, 0)⟩).rect =
      bbox_union ⟨0, 0, 10, 10⟩ ⟨2, 2, 10, 10⟩ ∧
    rect_contains ((merge_two_regions
        ⟨⟨0, 0, 10, 10⟩, ['a'], 1, (0, 0, 0, 0), (0, 0, 0, 0)⟩
        ⟨⟨2, 2, 10, 10⟩, ['b'], 1, (0, 0, 0, 0), (0, 0, 0, 0)⟩).rect)
      ⟨0, 0, 10, 10⟩ ∧
    rect_contains ((merge_two_regions
        ⟨⟨0, 0, 10, 10⟩, ['a'], 1, (0, 0, 0, 0), (0, 0, 0, 0)⟩
        ⟨⟨2, 2, 10, 10⟩, ['b'], 1, (0, 0, 0, 0), (0, 0, 0, 0)⟩).rect)
      ⟨2, 2, 10, 10⟩ :=
  merge_rect_is_bbox_union _ _ (by norm_num) (by norm_num) (by norm_num)
    (by norm_num) (by with_unfolding_all decide)

/-- C2: refuted as stated — when the statement doc[self.page_num] raises
(for example a page index out of range) after fitz.open succeeded, the
trace of run contains the open event and the finished signal but no close
event: the document handle is not released on the failure path. -/
theorem run_trace_open_without_close_on_failure :
    RunEvent.openDoc ∈ run_trace (some 2) ∧
    RunEvent.finishedSignal ∈ run_trace (some 2) ∧
    RunEvent.closeDoc ∉ run_trace (some 2) := by
  decide

/-- C8: the final output sequence is sorted by (top, left): every pair of
consecutive emitted candidates satisfies rect[i].top < rect[i+1].top, or
equal tops and rect[i].left ≤ rect[i+1].left. -/
theorem run_detection_sorted_by_top_left (page_num : Nat) (page_rect : PageRect)
    (blocks : List Block) :
    List.Chain' rect_le_lex
      ((run_detection page_num page_rect blocks).map Candidate.rect) := by
  have hsorted : List.Sorted region_le (List.insertionSort region_le
      (merge_overlapping_regions (initial_text_regions page_rect blocks)
        page_rect)) :=
    List.sorted_insertionSort region_le _
  have hmap : (run_detection page_num page_rect blocks).map Candidate.rect =
      (List.insertionSort region_le
        (merge_overlapping_regions (initial_text_regions page_rect blocks)
          page_rect)).enum.filterMap
        (fun p => if 2 < p.2.text.length then some p.2.rect else none) := by
    simp only [run_detection, List.map_filterMap]
    congr 1
    funext p
    by_cases h : 2 < p.2.text.length
    · simp [h, mk_candidate]
    · simp [h]
  rw [hmap]
  have hsub := filterMap_guard_sublist
    (fun p : Nat × Region => 2 < p.2.text.length) (fun p => p.2.rect)
    (List.insertionSort region_le
      (merge_overlapping_regions (initial_text_regions page_rect blocks)
        page_rect)).enum
  have hmap2 : ((List.insertionSort region_le
      (merge_overlapping_regions (initial_text_regions page_rect blocks)
        page_rect)).enum.map (fun p => p.2.rect)) =
      ((List.insertionSort region_le
        (merge_overlapping_regions (initial_text_regions page_rect blocks)
          page_rect)).map (fun r => r.rect)) := by
    have h1 := List.enum_map_snd (List.insertionSort region_le
      (merge_overlapping_regions (initial_text_regions page_rect blocks)
        page_rect))
    calc (List.insertionSort region_le
        (merge_overlapping_regions (initial_text_regions page_rect blocks)
          page_rect)).enum.map (fun p => p.2.rect)
        = ((List.insertionSort region_le
            (merge_overlapping_regions (initial_text_regions page_rect blocks)
              page_rect)).enum.map Prod.snd).map (fun r => r.rect) := by
          rw [List.map_map]
          rfl
      _ = _ := by rw [h1]
  have hpair : List.Pairwise rect_le_lex
      ((List.insertionSort region_le
        (merge_overlapping_regions (initial_text_regions page_rect blocks)
          page_rect)).map (fun r => r.rect)) :=
    List.pairwise_map.mpr hsorted
  rw [hmap2] at hsub
  exact (List.Pairwise.sublist hsub hpair).chain'

lemma mk_text_region_good (P : PageRect) (b : Block)
    (lines : List (List (List Char))) (hb : bbox_within b.bbox P) :
    GoodRect P (mk_text_region P b lines).rect := by
  obtain ⟨hb1, hb2, hb3, hb4, hb5, hb6⟩ := hb
  have hx0 : P.x0 ≤ max P.x0 (b.bbox.1 - horizontal_padding) := le_max_left _ _
  have hx1 : min P.x1 (b.bbox.2.2.1 + horizontal_padding) ≤ P.x1 := min_le_left _ _
  have hy0 : P.y0 ≤ max P.y0 (b.bbox.2.1 - vertical_padding) := le_max_left _ _
  have hy1 : min P.y1 (b.bbox.2.2.2 + vertical_padding) ≤ P.y1 := min_le_left _ _
  have hxw : max P.x0 (b.bbox.1 - horizontal_padding) ≤
      min P.x1 (b.bbox.2.2.1 + horizontal_padding) := by
    apply max_le
    · apply le_min
      · linarith
      · unfold horizontal_padding
        linarith
    · apply le_min
      · unfold horizontal_padding
        linarith
      · unfold horizontal_padding
        linarith
  have hyw : max P.y0 (b.bbox.2.1 - vertical_padding) ≤
      min P.y1 (b.bbox.2.2.2 + vertical_padding) := by
    apply max_le
    · apply le_min
      · linarith
      · unfold vertical_padding
        linarith
    · apply le_min
      · unfold vertical_padding
        linarith
      · unfold vertical_padding
        linarith
  refine ⟨⟨?_, ?_, ?_, ?_⟩, ?_, ?_⟩ <;>
    simp only [mk_text_region, apply_padding_with_boundaries] <;>
    linarith

lemma united_good {P : PageRect} {r1 r2 : QRect} (h1 : GoodRect P r1)
    (h2 : GoodRect P r2) : GoodRect P (r1.united r2) := by
  obtain ⟨⟨h1a, h1b, h1c, h1d⟩, h1w, h1h⟩ := h1
  obtain ⟨⟨h2a, h2b, h2c, h2d⟩, h2w, h2h⟩ := h2
  cases hn1 : r1.isNull with
  | true =>
    have : r1.united r2 = r2 := by
      simp [QRect.united, hn1]
    rw [this]
    exact ⟨⟨h2a, h2b, h2c, h2d⟩, h2w, h2h⟩
  | false =>
    cases hn2 : r2.isNull with
    | true =>
      have : r1.united r2 = r1 := by
        simp [QRect.united, hn1, hn2]
      rw [this]
      exact ⟨⟨h1a, h1b, h1c, h1d⟩, h1w, h1h⟩
    | false =>
      have hu : r1.united r2 =
          ⟨min r1.x r2.x, min r1.y r2.y,
           max (r1.x + r1.w) (r2.x + r2.w) - min r1.x r2.x,
           max (r1.y + r1.h) (r2.y + r2.h) - min r1.y r2.y⟩ := by
        simp only [QRect.united, hn1, hn2, Bool.false_eq_true, if_false,
          normLeft_of_nonneg h1w, normRight_of_nonneg h1w,
          normLeft_of_nonneg h2w, normRight_of_nonneg h2w,
          normTop_of_nonneg h1h, normBottom_of_nonneg h1h,
          normTop_of_nonneg h2h, normBottom_of_nonneg h2h]
      rw [hu]
      have e1 : r1.x ⊓ r2.x ≤ r1.x := min_le_left _ _
      have e2 : r1.x ⊓ r2.x ≤ r2.x := min_le_right _ _
      have e3 : r1.x + r1.w ≤ (r1.x + r1.w) ⊔ (r2.x + r2.w) := le_max_left _ _
      have e4 : r2.x + r2.w ≤ (r1.x + r1.w) ⊔ (r2.x + r2.w) := le_max_right _ _
      have e5 : r1.y ⊓ r2.y ≤ r1.y := min_le_left _ _
      have e6 : r1.y ⊓ r2.y ≤ r2.y := min_le_right _ _
      have e7 : r1.y + r1.h ≤ (r1.y + r1.h) ⊔ (r2.y + r2.h) := le_max_left _ _
      have e8 : r2.y + r2.h ≤ (r1.y + r1.h) ⊔ (r2.y + r2.h) := le_max_right _ _
      refine ⟨⟨?_, ?_, ?_, ?_⟩, ?_, ?_⟩ <;> simp only <;> linarith [le_min h1a h2a,
        max_le h1b h2b, le_min h1c h2c, max_le h1d h2d]

lemma merge_loop_good (P : PageRect) :
    ∀ (rest : List Region) (current : Region), GoodRect P current.rect →
      (∀ r ∈ rest, GoodRect P r.rect) →
      ∀ r ∈ merge_loop current rest, GoodRect P r.rect := by
  intro rest
  induction rest with
  | nil =>
    intro current hc _ r hr
    simp only [merge_loop, List.mem_singleton] at hr
    rw [hr]
    exact hc
  | cons nxt t ih =>
    intro current hc hrest r hr
    simp only [merge_loop] at hr
    by_cases hov : rectangles_overlap current.rect nxt.rect (3 / 10) = true
    · rw [if_pos hov] at hr
      have hmg : GoodRect P (merge_two_regions current nxt).rect :=
        united_good hc (hrest nxt (List.mem_cons_self nxt t))
      exact ih _ hmg (fun s hs => hrest s (List.mem_cons_of_mem nxt hs)) r hr
    · rw [if_neg hov] at hr
      rcases List.mem_cons.mp hr with hcur | hr2
      · rw [hcur]
        exact hc
      · exact ih nxt (hrest nxt (List.mem_cons_self nxt t))
          (fun s hs => hrest s (List.mem_cons_of_mem nxt hs)) r hr2

lemma merge_overlapping_good (P : PageRect) (regions : List Region)
    (h : ∀ r ∈ regions, GoodRect P r.rect) :
    ∀ r ∈ merge_overlapping_regions regions P, GoodRect P r.rect := by
  have hsortmem : ∀ r ∈ List.insertionSort region_le regions, GoodRect P r.rect :=
    fun r hr => h r ((List.perm_insertionSort region_le regions).subset hr)
  unfold merge_overlapping_regions
  cases hs : List.insertionSort region_le regions with
  | nil => simp
  | cons first rest =>
    exact merge_loop_good P rest first
      (hsortmem first (hs ▸ List.mem_cons_self first rest))
      (fun s hsm => hsortmem s (hs ▸ List.mem_cons_of_mem first hsm))

/-- C7: if every input block bounding box lies within the page bounds,
every emitted candidate rectangle lies within the page bounds scaled by
the fixed display factor 2; the containment survives padding, scaling,
merging, sorting and filtering. -/
theorem run_detection_rects_in_scaled_page (page_num : Nat) (page_rect : PageRect)
    (blocks : List Block) (hb : ∀ b ∈ blocks, bbox_within b.bbox page_rect) :
    output_in_scaled_page page_rect (run_detection page_num page_rect blocks) := by
  intro c hc
  simp only [run_detection] at hc
  rw [List.mem_filterMap] at hc
  obtain ⟨p, hp, hfp⟩ := hc
  have hreg : p.2 ∈ List.insertionSort region_le
      (merge_overlapping_regions (initial_text_regions page_rect blocks)
        page_rect) := by
    have hsnd := List.enum_map_snd (List.insertionSort region_le
      (merge_overlapping_regions (initial_text_regions page_rect blocks)
        page_rect))
    rw [← hsnd]
    exact List.mem_map_of_mem Prod.snd hp
  have hinit : ∀ r ∈ initial_text_regions page_rect blocks, GoodRect page_rect r.rect := by
    intro r hr
    rw [initial_text_regions, List.mem_filterMap] at hr
    obtain ⟨b, hbm, hbf⟩ := hr
    cases hl : b.lines? with
    | none =>
      rw [hl] at hbf
      simp at hbf
    | some lines =>
      rw [hl] at hbf
      have hbf2 : mk_text_region page_rect b lines = r := by simpa using hbf
      rw [← hbf2]
      exact mk_text_region_good page_rect b lines (hb b hbm)
  have hgood : GoodRect page_rect p.2.rect := by
    have hmem2 : p.2 ∈ merge_overlapping_regions
        (initial_text_regions page_rect blocks) page_rect :=
      (List.perm_insertionSort region_le _).subset hreg
    exact merge_overlapping_good page_rect _ hinit p.2 hmem2
  have hc_rect : c.rect = p.2.rect := by
    by_cases hlen : 2 < p.2.text.length
    · rw [if_pos hlen, Option.some_inj] at hfp
      rw [← hfp]
      rfl
    · rw [if_neg hlen] at hfp
      cases hfp
  rw [hc_rect]
  exact hgood.1

/-- C7 witness: the containment theorem applied to one in-bounds block on
the page (0, 0, 200, 200). -/
theorem run_detection_rects_in_scaled_page_witness :
    output_in_scaled_page ⟨0, 0, 200, 200⟩
      (run_detection 0 ⟨0, 0, 200, 200⟩
        [⟨(10, 10, 50, 30), some [[['f', 'o', 'o']]]⟩]) :=
  run_detection_rects_in_scaled_page 0 ⟨0, 0, 200, 200⟩
    [⟨(10, 10, 50, 30), some [[['f', 'o', 'o']]]⟩]
    (by with_unfolding_all decide)

/-- C9: no region whose trimmed text has length at most 2 ever appears in
the output, and when every merged region fails the length filter the run
yields the empty candidate sequence rather than an error. -/
theorem run_detection_filters_short_texts (page_num : Nat) (page_rect : PageRect)
    (blocks : List Block) :
    output_texts_long (run_detection page_num page_rect blocks) ∧
    (all_regions_short (merge_overlapping_regions
        (initial_text_regions page_rect blocks) page_rect) →
      run_detection page_num page_rect blocks = []) := by
  constructor
  · intro c hc
    simp only [run_detection] at hc
    rw [List.mem_filterMap] at hc
    obtain ⟨p, hp, hfp⟩ := hc
    by_cases hlen : 2 < p.2.text.length
    · rw [if_pos hlen, Option.some_inj] at hfp
      rw [← hfp]
      exact hlen
    · rw [if_neg hlen] at hfp
      cases hfp
  · intro hshort
    simp only [run_detection]
    rw [List.filterMap_eq_nil_iff]
    intro p hp
    have hmem : p.2 ∈ merge_overlapping_regions
        (initial_text_regions page_rect blocks) page_rect := by
      have hsnd := List.enum_map_snd (List.insertionSort region_le
        (merge_overlapping_regions (initial_text_regions page_rect blocks)
          page_rect))
      have hsort : p.2 ∈ List.insertionSort region_le
          (merge_overlapping_regions (initial_text_regions page_rect blocks)
            page_rect) := by
        rw [← hsnd]
        exact List.mem_map_of_mem Prod.snd hp
      exact (List.perm_insertionSort region_le _).subset hsort
    exact if_neg (not_lt.mpr (hshort p.2 hmem))

/-- C9 witness: the filter theorem applied to a single block whose trimmed
text ab has length 2, so the run yields the empty sequence. -/
theorem run_detection_filters_short_texts_witness :
    run_detection 0 ⟨0, 0, 500, 500⟩ [⟨(0, 0, 30, 5), some [[['a', 'b']]]⟩] = [] :=
  (run_detection_filters_short_texts 0 ⟨0, 0, 500, 500⟩
      [⟨(0, 0, 30, 5), some [[['a', 'b']]]⟩]).2
    (by with_unfolding_all decide)

/-- C1 counterexample: with one region of trimmed text ab (length 2,
filtered out) sorted before a region of text abcd, the single emitted
candidate carries number 2, not the dense sequence starting at 1: the
filtered region consumed a number. -/
theorem run_detection_numbers_not_dense_cex :
    ¬ numbers_dense (run_detection 0 ⟨0, 0, 500, 500⟩
      [⟨(0, 0, 30, 5), some [[['a', 'b']]]⟩,
       ⟨(0, 200, 30, 210), some [[['a', 'b', 'c', 'd']]]⟩]) := by
  with_unfolding_all decide

/-- C1 amended: each candidate's number is one more than the index of its
region in the sorted merged list, so the emitted numbers are strictly
increasing and start no lower than 1 (gaps appear when a filtered region
consumes an index), and each color is the palette entry at (number - 1)
modulo the palette size. -/
theorem run_detection_numbers_increasing_colors (page_num : Nat)
    (page_rect : PageRect) (blocks : List Block) :
    numbers_strictly_increasing (run_detection page_num page_rect blocks) ∧
    colors_follow_numbers (run_detection page_num page_rect blocks) := by
  constructor
  · unfold numbers_strictly_increasing
    apply List.Pairwise.chain'
    simp only [run_detection]
    rw [List.pairwise_filterMap]
    have henum := pairwise_fst_lt_enumFrom 0 (List.insertionSort region_le
      (merge_overlapping_regions (initial_text_regions page_rect blocks)
        page_rect))
    rw [← List.enum_eq_enumFrom] at henum
    refine henum.imp ?_
    intro p q hpq c hc d hd
    by_cases h1 : 2 < p.2.text.length
    · rw [if_pos h1] at hc
      by_cases h2 : 2 < q.2.text.length
      · rw [if_pos h2] at hd
        rw [Option.mem_def, Option.some_inj] at hc hd
        rw [← hc, ← hd]
        exact Nat.succ_lt_succ hpq
      · rw [if_neg h2] at hd
        cases hd
    · rw [if_neg h1] at hc
      cases hc
  · intro c hc
    simp only [run_detection] at hc
    rw [List.mem_filterMap] at hc
    obtain ⟨p, hp, hfp⟩ := hc
    by_cases hlen : 2 < p.2.text.length
    · rw [if_pos hlen, Option.some_inj] at hfp
      rw [← hfp]
      refine ⟨Nat.le_add_left 1 p.1, ?_⟩
      simp [mk_candidate]
    · rw [if_neg hlen] at hfp
      cases hfp

end AutoBalloon

